import Mathlib

/-!
Verification of the unwise-backend services layer.

Monetary amounts are embedded as rationals (`ℚ`); Go's `math.Round`
(round half away from zero) becomes `goRound`, and the ubiquitous
`math.Round(x*RoundingFactor)/RoundingFactor` becomes `round2`.
Go maps are embedded as association lists (one fixed iteration order).
-/

/-- Go `math.Round`: rounds to the nearest integer, half away from zero. -/
def goRound (x : ℚ) : ℚ :=
  if 0 ≤ x then ((⌊x + 1/2⌋ : ℤ) : ℚ) else ((⌈x - 1/2⌉ : ℤ) : ℚ)

/-- services/constants.go: `BalanceThreshold = 0.01`. -/
def BalanceThreshold : ℚ := 1/100

/-- services/constants.go: `AmountTolerance = 0.001`. -/
def AmountTolerance : ℚ := 1/1000

/-- services/constants.go: `RoundingFactor = 100.0`. -/
def RoundingFactor : ℚ := 100

/-- The repository's pervasive idiom `math.Round(x*RoundingFactor)/RoundingFactor`:
rounding to 2 decimal places. -/
def round2 (x : ℚ) : ℚ := goRound (x * RoundingFactor) / RoundingFactor

/-- services/group_service.go `personBalance`. -/
structure personBalance where
  userID : String
  balance : ℚ
deriving DecidableEq, Repr

/-- models: `Settlement` (FromUserID, ToUserID, Amount, Currency). -/
structure Settlement where
  fromUserID : String
  toUserID : String
  amount : ℚ
  currency : String
deriving DecidableEq, Repr

/-- services/group_service.go `balanceHeap`: a slice managed by Go's
`container/heap` with `Less i j ↔ h[i].balance > h[j].balance` (max-heap). -/
abbrev balanceHeap := Array personBalance

/-- balanceHeap.Less: `h[i].balance > h[j].balance`, reading out of range as
the zero element (never exercised by the algorithm). -/
def heapLess (h : balanceHeap) (i j : Nat) : Prop :=
  (h.getD i ⟨"", 0⟩).balance > (h.getD j ⟨"", 0⟩).balance

instance (h : balanceHeap) (i j : Nat) : Decidable (heapLess h i j) := by
  unfold heapLess; infer_instance

/-- balanceHeap.Swap with the bounds checks Go's runtime guarantees at the
call sites made explicit. -/
def heapSwap (a : balanceHeap) (i j : Nat) : balanceHeap :=
  if hi : i < a.size then
    if hj : j < a.size then a.swap ⟨i, hi⟩ ⟨j, hj⟩ else a
  else a

/-- container/heap `up`: sift the element at index `j` towards the root. The
Go loop is unbounded; here it carries explicit fuel (the index `j` strictly
decreases each pass, so `j` passes always suffice — theorem
`siftUp_fuel_sufficient`), which keeps the definition structurally recursive
and kernel-computable. -/
def siftUp (fuel : Nat) (a : balanceHeap) (j : Nat) : balanceHeap :=
  match fuel with
  | 0 => a
  | fuel + 1 =>
    let i := (j - 1) / 2
    if i ≠ j ∧ heapLess a j i then siftUp fuel (heapSwap a i j) i else a

/-- container/heap `down`: sift the element at index `i` down, within the
first `n` elements. Fuel as in `siftUp` (`n - i` passes suffice — theorem
`siftDown_fuel_sufficient`). -/
def siftDown (fuel : Nat) (a : balanceHeap) (i n : Nat) : balanceHeap :=
  match fuel with
  | 0 => a
  | fuel + 1 =>
    let j1 := 2 * i + 1
    if j1 < n then
      let j := if j1 + 1 < n ∧ heapLess a (j1 + 1) j1 then j1 + 1 else j1
      if heapLess a j i then siftDown fuel (heapSwap a i j) j n else a
    else a

/-- container/heap `Push` on a `balanceHeap`: append, then sift up from the
last index. -/
def heapPush (h : balanceHeap) (x : personBalance) : balanceHeap :=
  siftUp h.size (h.push x) h.size

/-- container/heap `Pop` on a `balanceHeap`: swap the root with the last
element, sift the new root down over the first `n-1` elements, and remove the
last element (the maximum). Only ever called on a non-empty heap. -/
def heapPop (h : balanceHeap) : personBalance × balanceHeap :=
  let n := h.size - 1
  let a := siftDown n (heapSwap h 0 n) 0 n
  (a.getD n ⟨"", 0⟩, a.pop)

/-- The loop of `calculateSettlementsForCurrency` (services/group_service.go):
`for creditorHeap.Len() > 0 && debtorHeap.Len() > 0 { ... }`. The Go loop is
unbounded; here it carries explicit fuel, and `calculateSettlementsForCurrency`
supplies fuel equal to the combined initial heap size — a theorem below
proves that this much fuel always suffices, so the fuel-exhausted branch is
never taken. -/
def settleLoop (currency : String) : Nat → balanceHeap → balanceHeap → List Settlement
  | 0, _, _ => []
  | fuel + 1, creditorHeap, debtorHeap =>
    if creditorHeap.size ≠ 0 ∧ debtorHeap.size ≠ 0 then
      let pc := heapPop creditorHeap
      let creditor := pc.1
      let pd := heapPop debtorHeap
      let debtor := pd.1
      let amount := min creditor.balance debtor.balance
      let roundedAmount := round2 amount
      let newCreditor : personBalance := ⟨creditor.userID, round2 (creditor.balance - amount)⟩
      let newDebtor : personBalance := ⟨debtor.userID, round2 (debtor.balance - amount)⟩
      let ch2 := if newCreditor.balance > BalanceThreshold then heapPush pc.2 newCreditor else pc.2
      let dh2 := if newDebtor.balance > BalanceThreshold then heapPush pd.2 newDebtor else pd.2
      (if roundedAmount > BalanceThreshold then
        [Settlement.mk debtor.userID creditor.userID roundedAmount currency]
      else []) ++ settleLoop currency fuel ch2 dh2
    else []

/-- The heap-building prologue of `calculateSettlementsForCurrency`: each
balance is rounded to 2 decimals; values above `BalanceThreshold` go on the
creditor heap, values below `-BalanceThreshold` go (as absolute values) on the
debtor heap, the rest are dropped. -/
def buildHeaps (balances : List (String × ℚ)) : balanceHeap × balanceHeap :=
  balances.foldl
    (fun hs kv =>
      let roundedBalance := round2 kv.2
      if roundedBalance > BalanceThreshold then
        (heapPush hs.1 ⟨kv.1, roundedBalance⟩, hs.2)
      else if roundedBalance < -BalanceThreshold then
        (hs.1, heapPush hs.2 ⟨kv.1, -roundedBalance⟩)
      else hs)
    (#[], #[])

/-- services/group_service.go `calculateSettlementsForCurrency`, with the
balance map embedded as an association list. -/
def calculateSettlementsForCurrency (balances : List (String × ℚ)) (currency : String) :
    List Settlement :=
  let hs := buildHeaps balances
  settleLoop currency (hs.1.size + hs.2.size) hs.1 hs.2

/-- The regrouping step of `CalculateSettlements`:
`currencyBalances[currency][userID] = balance`, with Go-map assignment on
fresh keys embedded as appending to the association list. -/
def upsertCurrency (m : List (String × List (String × ℚ))) (c u : String) (b : ℚ) :
    List (String × List (String × ℚ)) :=
  match m with
  | [] => [(c, [(u, b)])]
  | (c', l) :: rest =>
    if c' = c then (c', l ++ [(u, b)]) :: rest else (c', l) :: upsertCurrency rest c u b

/-- services/group_service.go `CalculateSettlements`, minus the membership
check and repository fetch: regroups the per-user per-currency balances into
per-currency balance maps, then runs the greedy simplification once per
currency, concatenating the per-currency edges. -/
def CalculateSettlements (balancesByUser : List (String × List (String × ℚ))) :
    List Settlement :=
  let currencyBalances :=
    balancesByUser.foldl
      (fun m uc => uc.2.foldl (fun m' cb => upsertCurrency m' cb.1 uc.1 cb.2) m) []
  currencyBalances.foldl
    (fun acc cb => acc ++ calculateSettlementsForCurrency cb.2 cb.1) []

/-- errors package: the application error constructors reached by the verified
services (`AmountMismatch(got, expected, side)`, `CannotDeleteGroupWithDebts`,
`UserNotFoundByEmail`, `CannotAddSelf`, `AlreadyFriends`, `NotGroupMember`,
`DatabaseError(op)`). -/
inductive AppError where
  | amountMismatch (got expected : ℚ) (side : String)
  | cannotDeleteGroupWithDebts
  | userNotFoundByEmail (email : String)
  | cannotAddSelf
  | alreadyFriends
  | notGroupMember
  | databaseError (op : String)
deriving DecidableEq, Repr

/-- models: `ExpensePayer` (the generated UUID row id is not modelled). -/
structure ExpensePayer where
  userID : String
  amountPaid : ℚ
deriving DecidableEq, Repr

/-- models: `ExpenseSplit` (row id and optional percentage not modelled). -/
structure ExpenseSplit where
  userID : String
  amount : ℚ
deriving DecidableEq, Repr

/-- models: `ReceiptItem` (row id and assignments not modelled). -/
structure ReceiptItem where
  name : String
  price : ℚ
deriving DecidableEq, Repr

/-- models: `Expense`, restricted to the fields the verified operations read
or write (total amount, optional legacy paid-by user, payers, receipt items). -/
structure Expense where
  totalAmount : ℚ
  paidByUserID : Option String
  payers : List ExpensePayer
  receiptItems : List ReceiptItem
deriving DecidableEq, Repr

/-- expense service `validateExpenseAmounts` (shared by Create and Update):
the payer sum is checked against the total first, then the split sum, each
rounded to 2 decimals and compared within `AmountTolerance`. -/
def validateExpenseAmounts (expense : Expense) (splits : List ExpenseSplit) :
    Except AppError Unit :=
  let totalPaid := expense.payers.foldl (fun acc payer => acc + payer.amountPaid) 0
  let roundedTotalPaid := round2 totalPaid
  let roundedTotalAmount := round2 expense.totalAmount
  if |roundedTotalPaid - roundedTotalAmount| > AmountTolerance then
    .error (.amountMismatch roundedTotalPaid roundedTotalAmount "payer")
  else
    let totalSplit := splits.foldl (fun acc split => acc + split.amount) 0
    let roundedTotalSplit := round2 totalSplit
    if |roundedTotalSplit - roundedTotalAmount| > AmountTolerance then
      .error (.amountMismatch roundedTotalSplit roundedTotalAmount "split")
    else .ok ()

/-- The stored rows belonging to one expense: the expense row (carrying its
payers and receipt items) and its splits. -/
structure StoredExpenseState where
  expense : Expense
  splits : List ExpenseSplit
deriving DecidableEq, Repr

/-- expense service `Update`, after the existence and membership guards: the
payer-defaulting step (an empty payer list is backfilled from the request's or
the stored expense's paid-by user, when present), then `validateExpenseAmounts`,
and only on success the replace transaction, which installs the request's
expense row, payers, splits and receipt items wholesale. On a validation error
the stored state is returned untouched — the transaction never started. -/
def expenseUpdate (stored : StoredExpenseState) (req : Expense)
    (newSplits : List ExpenseSplit) : Option AppError × StoredExpenseState :=
  let existing := stored.expense
  let req1 :=
    if req.payers = [] then
      let paidBy :=
        if req.paidByUserID = none ∧ existing.paidByUserID ≠ none then
          existing.paidByUserID
        else req.paidByUserID
      match paidBy with
      | some uid =>
        { req with paidByUserID := some uid,
                   payers := [ExpensePayer.mk uid req.totalAmount] }
      | none => req
    else req
  match validateExpenseAmounts req1 newSplits with
  | .error e => (some e, stored)
  | .ok _ => (none, StoredExpenseState.mk req1 newSplits)

/-- models: `Balance` (UserID, OwedAmount). -/
structure Balance where
  userID : String
  owedAmount : ℚ
deriving DecidableEq, Repr

/-- group service `calculateBalances`: flattens the per-user per-currency
balance map, rounding each balance to 2 decimals and keeping only those whose
absolute value exceeds `BalanceThreshold`. -/
def calculateBalances (balancesByCurrency : List (String × List (String × ℚ))) :
    List Balance :=
  balancesByCurrency.foldl
    (fun result uc =>
      uc.2.foldl
        (fun result' cb =>
          let roundedBalance := round2 cb.2
          if |roundedBalance| > BalanceThreshold then
            result' ++ [Balance.mk uc.1 roundedBalance]
          else result')
        result)
    []

/-- group service `Delete`, after the membership guard: refuses with
`CannotDeleteGroupWithDebts` when `calculateBalances` is non-empty, otherwise
issues the delete (`none` = success). -/
def groupDelete (balancesByCurrency : List (String × List (String × ℚ))) :
    Option AppError :=
  if (calculateBalances balancesByCurrency).length > 0 then
    some .cannotDeleteGroupWithDebts
  else none

/-- import service `SplitwiseRow`, restricted to the fields `importExpenseRow`
reads (cost and the per-member balance columns; date, description, category and
currency do not influence the computed payers/splits). -/
structure SplitwiseRow where
  cost : ℚ
  balances : List (String × ℚ)

/-- Go map lookup on the resolved member mapping (CSV member name to user id),
embedded as first-match association-list lookup. -/
def lookupMember (memberMapping : List (String × String)) (name : String) :
    Option String :=
  match memberMapping with
  | [] => none
  | (k, v) :: rest => if k = name then some v else lookupMember rest name

/-- import service `importExpenseRow`, reduced to its pure payer/split
computation (the UUID generation and repository writes are dropped):
`totalOwed` is the sum of the absolute values of balances below
`-AmountTolerance`, `payerShare = cost - totalOwed`; each mapped member with
balance above `AmountTolerance` becomes a payer for `balance + payerShare`
(plus a split for `payerShare` when `payerShare > AmountTolerance`), each
mapped member with balance below `-AmountTolerance` becomes a split for the
absolute balance; if no payer was produced, the member with the strictly
largest positive balance (ties and zero excluded by the strict `>` against an
accumulator starting at 0) becomes sole payer of the full cost. -/
def importExpenseRow (row : SplitwiseRow) (memberMapping : List (String × String)) :
    List ExpensePayer × List ExpenseSplit :=
  let totalOwed := row.balances.foldl
    (fun acc kv => if kv.2 < -AmountTolerance then acc + |kv.2| else acc) 0
  let payerShare := row.cost - totalOwed
  let ps := row.balances.foldl
    (fun (ps : List ExpensePayer × List ExpenseSplit) kv =>
      match lookupMember memberMapping kv.1 with
      | none => ps
      | some userID =>
        if kv.2 > AmountTolerance then
          (ps.1 ++ [ExpensePayer.mk userID (kv.2 + payerShare)],
           if payerShare > AmountTolerance then
             ps.2 ++ [ExpenseSplit.mk userID payerShare]
           else ps.2)
        else if kv.2 < -AmountTolerance then
          (ps.1, ps.2 ++ [ExpenseSplit.mk userID |kv.2|])
        else ps)
    ([], [])
  if ps.1 = [] then
    let mx := row.balances.foldl
      (fun (m : String × ℚ) kv => if kv.2 > m.2 then kv else m) ("", 0)
    if mx.1 ≠ "" then
      match lookupMember memberMapping mx.1 with
      | some userID => ([ExpensePayer.mk userID row.cost], ps.2)
      | none => ([], ps.2)
    else ([], ps.2)
  else ps

/-- Modelled from the claim's words: `totalOwed` is the sum of the absolute
values of the member balances below the -0.001 tolerance. -/
def importTotalOwed (l : List (String × ℚ)) : ℚ :=
  ((l.filter (fun kv => kv.2 < -AmountTolerance)).map (fun kv => |kv.2|)).sum

/-- The fallback scan of `importExpenseRow`: the member whose balance first
strictly exceeds every earlier one (and 0), starting from the empty name. -/
def importMaxMember (l : List (String × ℚ)) : String × ℚ :=
  l.foldl (fun m kv => if kv.2 > m.2 then kv else m) ("", 0)

/-- Modelled from the claim's words: every mapped member with balance above
the 0.001 tolerance becomes a payer for `balance + payerShare`. -/
def importPayersSpec (mapping : List (String × String)) (payerShare : ℚ)
    (l : List (String × ℚ)) : List ExpensePayer :=
  l.filterMap (fun kv =>
    match lookupMember mapping kv.1 with
    | none => none
    | some userID =>
      if kv.2 > AmountTolerance then
        some (ExpensePayer.mk userID (kv.2 + payerShare))
      else none)

/-- Modelled from the claim's words: every mapped member with balance above
0.001 becomes a split participant for `payerShare` when `payerShare` exceeds
0.001, and every mapped member with balance below -0.001 becomes a split
participant for the absolute value of their balance. -/
def importSplitsSpec (mapping : List (String × String)) (payerShare : ℚ)
    (l : List (String × ℚ)) : List ExpenseSplit :=
  l.flatMap (fun kv =>
    match lookupMember mapping kv.1 with
    | none => []
    | some userID =>
      if kv.2 > AmountTolerance then
        (if payerShare > AmountTolerance then [ExpenseSplit.mk userID payerShare]
         else [])
      else if kv.2 < -AmountTolerance then [ExpenseSplit.mk userID |kv.2|]
      else [])

/-- import service `findString`: index of the first occurrence of `substr` in
`s`; Go's `-1` sentinel is embedded as `none`. -/
def findString (s substr : List Char) : Option Nat :=
  if substr.isPrefixOf s then some 0
  else
    match s with
    | [] => none
    | _ :: rest => (findString rest substr).map (· + 1)

/-- import service `removeMarkdownCodeBlocks`: cut the text down to what sits
after a leading fence (7 characters past a first occurrence of three backticks
followed by the word json, else 3 past a first occurrence of three backticks,
else the start) and before the next fence (else the end), then trim any
remaining leading and trailing backtick characters. -/
def removeMarkdownCodeBlocks (text : List Char) : List Char :=
  let start :=
    match findString text ("\x60\x60\x60json".data) with
    | some idx => idx + 7
    | none =>
      match findString text ("\x60\x60\x60".data) with
      | some idx => idx + 3
      | none => 0
  let stop :=
    match findString (text.drop start) ("\x60\x60\x60".data) with
    | some idx => start + idx
    | none => text.length
  let text1 := (text.take stop).drop start
  let text2 := text1.dropWhile (fun c => c = '\x60')
  ((text2.reverse.dropWhile (fun c => c = '\x60')).reverse)

/-- The scanning loop of import service `removeWhitespace`: one pass over the
bytes with an in-string flag and an escape-next flag; an escaped character is
always kept, a backslash is kept and arms the escape flag, a double quote is
kept and toggles the in-string flag, characters inside a string are kept, and
outside a string every character except space, newline, tab and carriage
return is kept. -/
def removeWhitespaceLoop : List Char → Bool → Bool → List Char
  | [], _, _ => []
  | char :: rest, inString, escapeNext =>
    if escapeNext then char :: removeWhitespaceLoop rest inString false
    else if char = '\\' then char :: removeWhitespaceLoop rest inString true
    else if char = '"' then char :: removeWhitespaceLoop rest (!inString) false
    else if inString then char :: removeWhitespaceLoop rest inString false
    else if char ≠ ' ' ∧ char ≠ '\n' ∧ char ≠ '\t' ∧ char ≠ '\r' then
      char :: removeWhitespaceLoop rest inString false
    else removeWhitespaceLoop rest inString false

/-- import service `removeWhitespace`: the scan starts outside any string with
the escape flag clear. -/
def removeWhitespace (text : List Char) : List Char :=
  removeWhitespaceLoop text false false

/-- import service `cleanJSONResponse`: fence stripping, then whitespace
removal. -/
def cleanJSONResponse (text : List Char) : List Char :=
  removeWhitespace (removeMarkdownCodeBlocks text)

/-- Whitespace in the sanitizer's sense: space, tab, newline, carriage
return. -/
def isWhitespaceChar (c : Char) : Bool :=
  c = ' ' || c = '\t' || c = '\n' || c = '\r'

/-- Modelled from the claim's words, for comparison with `removeWhitespace`:
a backslash and the character it escapes are consumed as one unit and both
kept; a double quote is kept and flips the in-string state; any other
character is kept when inside a string, and kept exactly when it is not a
space, tab, newline or carriage return otherwise. -/
def sanitizeSpec : List Char → Bool → List Char
  | [], _ => []
  | c :: rest, inString =>
    if c = '\\' then
      match rest with
      | [] => [c]
      | c2 :: rest2 => c :: c2 :: sanitizeSpec rest2 inString
    else if c = '"' then c :: sanitizeSpec rest (!inString)
    else if inString then c :: sanitizeSpec rest inString
    else if isWhitespaceChar c then sanitizeSpec rest inString
    else c :: sanitizeSpec rest inString

/-- models: `User`, restricted to the fields the friend flow reads. -/
structure User where
  id : String
  email : String
deriving DecidableEq, Repr

/-- user repository `GetByEmail`, embedded as first-match lookup over the user
rows (`none` = the "no rows" not-found error). -/
def getByEmail (users : List User) (email : String) : Option User :=
  match users with
  | [] => none
  | u :: rest => if u.email = email then some u else getByEmail rest email

/-- The database-level error the repositories can surface to the services
modelled here: a unique-constraint violation, which
`apperrors.IsDuplicateError` recognises by substring. -/
inductive DBError where
  | duplicateKey
deriving DecidableEq, Repr

/-- errors package `IsDuplicateError`, on the modelled database errors. -/
def isDuplicateDBError : DBError → Bool
  | .duplicateKey => true

/-- The `friends` table: directed (user_id, friend_id) rows with a composite
primary key. -/
structure FriendsTable where
  edges : List (String × String)
deriving DecidableEq, Repr

/-- friend repository `Add`: `INSERT ... ON CONFLICT DO NOTHING` — inserting
an existing edge changes nothing and reports no error. -/
def friendRepoAdd (t : FriendsTable) (userID friendID : String) :
    FriendsTable × Option DBError :=
  if (userID, friendID) ∈ t.edges then (t, none)
  else (FriendsTable.mk (t.edges ++ [(userID, friendID)]), none)

/-- friend service `AddFriendByEmail`: resolve the email, reject resolving to
the caller, insert the edge, mapping a duplicate-key error from the insert to
`AlreadyFriends` (a branch that is unreachable, since the insert is
ignore-on-conflict and surfaces no error). -/
def AddFriendByEmail (users : List User) (t : FriendsTable) (userID email : String) :
    FriendsTable × Except AppError Unit :=
  match getByEmail users email with
  | none => (t, .error (.userNotFoundByEmail email))
  | some friendUser =>
    if friendUser.id = userID then (t, .error .cannotAddSelf)
    else
      let r := friendRepoAdd t userID friendUser.id
      match r.2 with
      | some e =>
        if isDuplicateDBError e then (t, .error .alreadyFriends)
        else (t, .error (.databaseError "adding friend"))
      | none => (r.1, .ok ())

/-- The `comment_reactions` table rows, as (comment_id, user_id, emoji)
triples (the generated UUID row id does not take part in the unique
constraint and is not modelled). -/
abbrev ReactionRow := String × String × String

/-- comment repository `AddReaction`: a plain INSERT; the
`UNIQUE (comment_id, user_id, emoji)` constraint makes a duplicate insert fail
with a duplicate-key error and leave the table unchanged. -/
def commentRepoAddReaction (rows : List ReactionRow) (r : ReactionRow) :
    List ReactionRow × Option DBError :=
  if r ∈ rows then (rows, some .duplicateKey)
  else (rows ++ [r], none)

/-- comment repository `RemoveReaction`: `DELETE ... WHERE comment_id = $1 AND
user_id = $2 AND emoji = $3`; deleting zero rows is not an error. -/
def commentRepoRemoveReaction (rows : List ReactionRow)
    (commentID userID emoji : String) : List ReactionRow × Option DBError :=
  (rows.filter (fun y => y ≠ (commentID, userID, emoji)), none)

/-- comment service `AddReaction`: after the comment lookup and group-access
check (their success is passed in as flags here), insert the reaction and
treat a duplicate-key error from the repository as success. -/
def AddReaction (commentExists hasAccess : Bool) (rows : List ReactionRow)
    (commentID userID emoji : String) : List ReactionRow × Except AppError Unit :=
  if !commentExists then (rows, .error (.databaseError "finding comment"))
  else if !hasAccess then (rows, .error .notGroupMember)
  else
    let r := commentRepoAddReaction rows (commentID, userID, emoji)
    match r.2 with
    | some e =>
      if isDuplicateDBError e then (rows, .ok ())
      else (rows, .error (.databaseError "adding reaction"))
    | none => (r.1, .ok ())

/-- comment service `RemoveReaction`: delegates to the repository delete and
propagates only database errors (of which the delete produces none). -/
def RemoveReaction (rows : List ReactionRow) (commentID userID emoji : String) :
    List ReactionRow × Except AppError Unit :=
  let r := commentRepoRemoveReaction rows commentID userID emoji
  match r.2 with
  | some _ => (rows, .error (.databaseError "removing reaction"))
  | none => (r.1, .ok ())

theorem goRound_abs_le {y : ℚ} (h : |y| < 1) : |goRound y| ≤ 1 := by
  rw [abs_lt] at h
  unfold goRound
  split
  · rw [abs_le]
    constructor
    · have h0 : (0:ℤ) ≤ ⌊y + 1/2⌋ := Int.le_floor.mpr (by push_cast; linarith)
      have h0' : (0:ℚ) ≤ ((⌊y + 1/2⌋ : ℤ) : ℚ) := by exact_mod_cast h0
      linarith
    · have h2 : ⌊y + 1/2⌋ < 2 := Int.floor_lt.mpr (by push_cast; linarith)
      have h2' : ⌊y + 1/2⌋ ≤ 1 := by omega
      exact_mod_cast h2'
  · rw [abs_le]
    constructor
    · have h2 : (-2:ℤ) < ⌈y - 1/2⌉ := Int.lt_ceil.mpr (by push_cast; linarith)
      have h2' : (-1:ℤ) ≤ ⌈y - 1/2⌉ := by omega
      exact_mod_cast h2'
    · have h0 : ⌈y - 1/2⌉ ≤ 0 := Int.ceil_le.mpr (by push_cast; linarith)
      have h0' : ((⌈y - 1/2⌉ : ℤ) : ℚ) ≤ 0 := by exact_mod_cast h0
      linarith

theorem round2_abs_le {x : ℚ} (h : |x| < BalanceThreshold) :
    |round2 x| ≤ BalanceThreshold := by
  have hy : |x * 100| < 1 := by
    rw [abs_mul]
    rw [show |(100:ℚ)| = 100 by norm_num]
    unfold BalanceThreshold at h
    linarith
  have hg := goRound_abs_le hy
  unfold round2 RoundingFactor BalanceThreshold
  rw [abs_div, show |(100:ℚ)| = 100 by norm_num]
  linarith

theorem round2_zero : round2 0 = 0 := by
  norm_num [round2, goRound, RoundingFactor]

theorem heapSwap_size (a : balanceHeap) (i j : Nat) :
    (heapSwap a i j).size = a.size := by
  unfold heapSwap
  split
  · split
    · rw [Array.size_swap]
    · rfl
  · rfl

theorem siftUp_size : ∀ (fuel : Nat) (a : balanceHeap) (j : Nat),
    (siftUp fuel a j).size = a.size := by
  intro fuel
  induction fuel with
  | zero => intro a j; rfl
  | succ n ih =>
    intro a j
    rw [siftUp]
    split
    · rw [ih, heapSwap_size]
    · rfl

theorem siftDown_size : ∀ (fuel : Nat) (a : balanceHeap) (i n : Nat),
    (siftDown fuel a i n).size = a.size := by
  intro fuel
  induction fuel with
  | zero => intro a i n; rfl
  | succ f ih =>
    intro a i n
    rw [siftDown]
    dsimp only
    split
    · split
      · split
        · rw [ih, heapSwap_size]
        · rfl
      · split
        · rw [ih, heapSwap_size]
        · rfl
    · rfl

theorem heapPush_size (h : balanceHeap) (x : personBalance) :
    (heapPush h x).size = h.size + 1 := by
  unfold heapPush
  rw [siftUp_size, Array.size_push]

theorem heapPop_size (h : balanceHeap) :
    (heapPop h).2.size = h.size - 1 := by
  unfold heapPop
  rw [Array.size_pop, siftDown_size, heapSwap_size]

theorem settleLoop_mem_currency (currency : String) :
    ∀ (fuel : Nat) (ch dh : balanceHeap) (s : Settlement),
      s ∈ settleLoop currency fuel ch dh → s.currency = currency := by
  intro fuel
  induction fuel with
  | zero =>
    intro ch dh s hs
    simp [settleLoop] at hs
  | succ n ih =>
    intro ch dh s hs
    rw [settleLoop] at hs
    split at hs
    · rw [List.mem_append] at hs
      rcases hs with hs | hs
      · split at hs
        · rw [List.mem_singleton] at hs
          subst hs
          rfl
        · simp at hs
      · exact ih _ _ _ hs
    · simp at hs

/-- C1: for a single currency, the greedy settlement computation on the
balance map with A at +10.00 and B at −10.00 returns exactly one edge, from B
to A, of amount 10.00; and for every balance map whose two entries are equal
and opposite with magnitude below the 0.01 threshold it returns zero edges. -/
theorem c1_single_currency_settlement :
    (calculateSettlementsForCurrency [("A", 10), ("B", -10)] "INR" =
      [Settlement.mk "B" "A" 10 "INR"]) ∧
    ∀ (x : ℚ) (currency : String), |x| < BalanceThreshold →
      calculateSettlementsForCurrency [("A", x), ("B", -x)] currency = [] := by
  constructor
  · with_unfolding_all rfl
  · intro x currency hx
    have h1 := round2_abs_le hx
    have h2 : |round2 (-x)| ≤ BalanceThreshold := round2_abs_le (by rwa [abs_neg])
    rw [abs_le] at h1 h2
    unfold calculateSettlementsForCurrency buildHeaps
    simp only [List.foldl]
    rw [if_neg (not_lt.mpr h1.2), if_neg (not_lt.mpr h1.1),
      if_neg (not_lt.mpr h2.2), if_neg (not_lt.mpr h2.1)]
    rfl

/-- Witness for C1: the residue pair at one ten-quadrillionth is below the
threshold and produces no settlement edge. -/
theorem c1_single_currency_settlement_witness :
    |(1:ℚ)/10000000000000000| < BalanceThreshold ∧
    calculateSettlementsForCurrency
      [("A", (1:ℚ)/10000000000000000), ("B", -((1:ℚ)/10000000000000000))] "INR" = [] :=
  ⟨by rw [abs_of_pos] <;> norm_num [BalanceThreshold],
   c1_single_currency_settlement.2 ((1:ℚ)/10000000000000000) "INR"
     (by rw [abs_of_pos] <;> norm_num [BalanceThreshold])⟩

/-- C2: the settlement computation runs once per currency bucket — on the
balance maps with A at (INR 100, USD 50) and B at (INR −100, USD −50) it
returns exactly two edges, one per currency, each from B to A for that
currency's amount — and every edge emitted by a per-currency run carries that
run's currency, so no edge ever mixes amounts from two currencies. -/
theorem c2_multi_currency_independence :
    (CalculateSettlements
        [("A", [("INR", 100), ("USD", 50)]), ("B", [("INR", -100), ("USD", -50)])] =
      [Settlement.mk "B" "A" 100 "INR", Settlement.mk "B" "A" 50 "USD"]) ∧
    ∀ (balances : List (String × ℚ)) (currency : String),
      ∀ s ∈ calculateSettlementsForCurrency balances currency,
        s.currency = currency := by
  constructor
  · with_unfolding_all rfl
  · intro balances currency s hs
    unfold calculateSettlementsForCurrency at hs
    exact settleLoop_mem_currency currency _ _ _ s hs

/-- Witness for C2: the single edge of a USD-only run carries currency USD. -/
theorem c2_multi_currency_independence_witness :
    (Settlement.mk "B" "A" 10 "USD").currency = "USD" :=
  c2_multi_currency_independence.2 [("A", 10), ("B", -10)] "USD" _
    (by
      have h : calculateSettlementsForCurrency [("A", 10), ("B", -10)] "USD" =
          [Settlement.mk "B" "A" 10 "USD"] := by with_unfolding_all rfl
      rw [h]
      exact List.mem_singleton_self _)

theorem siftUp_fuel_irrel : ∀ (f₁ f₂ : Nat) (a : balanceHeap) (j : Nat),
    j ≤ f₁ → j ≤ f₂ → siftUp f₁ a j = siftUp f₂ a j := by
  intro f₁
  induction f₁ with
  | zero =>
    intro f₂ a j h1 _
    have hj : j = 0 := by omega
    subst hj
    cases f₂ with
    | zero => rfl
    | succ g =>
      rw [show siftUp 0 a 0 = a from rfl, siftUp]
      try dsimp only
      rw [if_neg]
      intro hc
      exact hc.1 rfl
  | succ f ih =>
    intro f₂ a j h1 h2
    cases f₂ with
    | zero =>
      have hj : j = 0 := by omega
      subst hj
      rw [show siftUp 0 a 0 = a from rfl, siftUp]
      try dsimp only
      rw [if_neg]
      intro hc
      exact hc.1 rfl
    | succ g =>
      rw [siftUp, siftUp]
      try dsimp only
      split
      · next hc =>
        have hij : (j - 1) / 2 < j := by
          have := hc.1
          omega
        exact ih g (heapSwap a ((j - 1) / 2) j) ((j - 1) / 2) (by omega) (by omega)
      · rfl

/-- The fuel `heapPush` hands `siftUp` always suffices: `siftUp` visits
strictly decreasing indices, so `j` passes reach a fixpoint. -/
theorem siftUp_fuel_sufficient (f : Nat) (a : balanceHeap) (j : Nat) (h : j ≤ f) :
    siftUp f a j = siftUp j a j :=
  siftUp_fuel_irrel f j a j h le_rfl

theorem siftDown_fuel_irrel : ∀ (f₁ f₂ : Nat) (a : balanceHeap) (i n : Nat),
    n - i ≤ f₁ → n - i ≤ f₂ → siftDown f₁ a i n = siftDown f₂ a i n := by
  intro f₁
  induction f₁ with
  | zero =>
    intro f₂ a i n h1 _
    have hn : ¬(2 * i + 1 < n) := by omega
    cases f₂ with
    | zero => rfl
    | succ g =>
      rw [show siftDown 0 a i n = a from rfl, siftDown]
      try dsimp only
      rw [if_neg hn]
  | succ f ih =>
    intro f₂ a i n h1 h2
    cases f₂ with
    | zero =>
      have hn : ¬(2 * i + 1 < n) := by omega
      rw [show siftDown 0 a i n = a from rfl, siftDown]
      try dsimp only
      rw [if_neg hn]
    | succ g =>
      rw [siftDown, siftDown]
      try dsimp only
      by_cases hn : 2 * i + 1 < n
      · rw [if_pos hn, if_pos hn]
        split
        · next hj2 =>
          split
          · exact ih g _ _ _ (by omega) (by omega)
          · rfl
        · next hj2 =>
          split
          · exact ih g _ _ _ (by omega) (by omega)
          · rfl
      · rw [if_neg hn, if_neg hn]

/-- The fuel `heapPop` hands `siftDown` always suffices: the visited index
strictly increases towards `n`, so `n - i` passes reach a fixpoint. -/
theorem siftDown_fuel_sufficient (f : Nat) (a : balanceHeap) (i n : Nat)
    (h : n - i ≤ f) : siftDown f a i n = siftDown (n - i) a i n :=
  siftDown_fuel_irrel f (n - i) a i n h le_rfl

theorem settleStep_size_bound (pc pd : personBalance) (ch1 dh1 : balanceHeap) :
    (if round2 (pc.balance - min pc.balance pd.balance) > BalanceThreshold
     then heapPush ch1 ⟨pc.userID, round2 (pc.balance - min pc.balance pd.balance)⟩
     else ch1).size +
    (if round2 (pd.balance - min pc.balance pd.balance) > BalanceThreshold
     then heapPush dh1 ⟨pd.userID, round2 (pd.balance - min pc.balance pd.balance)⟩
     else dh1).size
    ≤ ch1.size + dh1.size + 1 := by
  rcases le_total pc.balance pd.balance with hle | hle
  · rw [min_eq_left hle, sub_self, round2_zero,
      if_neg (by norm_num [BalanceThreshold])]
    split
    · rw [heapPush_size]
      omega
    · omega
  · rw [min_eq_right hle,
      show pd.balance - pd.balance = 0 from sub_self _, round2_zero]
    rw [if_neg (show ¬((0:ℚ) > BalanceThreshold) by norm_num [BalanceThreshold])]
    split
    · rw [heapPush_size]
      omega
    · omega

theorem settleLoop_fuel_irrel (currency : String) :
    ∀ (f₁ f₂ : Nat) (ch dh : balanceHeap),
      ch.size + dh.size ≤ f₁ → ch.size + dh.size ≤ f₂ →
      settleLoop currency f₁ ch dh = settleLoop currency f₂ ch dh := by
  intro f₁
  induction f₁ with
  | zero =>
    intro f₂ ch dh h1 _
    have hc : ¬(ch.size ≠ 0 ∧ dh.size ≠ 0) := by omega
    cases f₂ with
    | zero => rfl
    | succ m =>
      rw [show settleLoop currency 0 ch dh = [] from rfl, settleLoop, if_neg hc]
  | succ n ih =>
    intro f₂ ch dh h1 h2
    cases f₂ with
    | zero =>
      have hc : ¬(ch.size ≠ 0 ∧ dh.size ≠ 0) := by omega
      rw [show settleLoop currency 0 ch dh = [] from rfl, settleLoop, if_neg hc]
    | succ m =>
      rw [settleLoop, settleLoop]
      by_cases hg : ch.size ≠ 0 ∧ dh.size ≠ 0
      · rw [if_pos hg, if_pos hg]
        try dsimp only
        congr 1
        have hb := settleStep_size_bound (heapPop ch).1 (heapPop dh).1
          (heapPop ch).2 (heapPop dh).2
        have hpc := heapPop_size ch
        have hpd := heapPop_size dh
        exact ih m _ _ (by omega) (by omega)
      · rw [if_neg hg, if_neg hg]

/-- C9: the per-currency greedy settlement loop terminates within (number of
creditors + number of debtors) iterations: running `settleLoop` with any fuel
at least the combined initial heap size yields the very result
`calculateSettlementsForCurrency` computes with exactly that much fuel —
each iteration pops one creditor and one debtor and pushes back at most one
of them (the smaller balance re-rounds to exactly zero), so the combined heap
size strictly decreases and the loop can never need more iterations than
initial heap entries. -/
theorem c9_settlement_loop_terminates :
    ∀ (balances : List (String × ℚ)) (currency : String) (fuel : Nat),
      (buildHeaps balances).1.size + (buildHeaps balances).2.size ≤ fuel →
      settleLoop currency fuel (buildHeaps balances).1 (buildHeaps balances).2 =
        calculateSettlementsForCurrency balances currency := by
  intro balances currency fuel h
  unfold calculateSettlementsForCurrency
  exact settleLoop_fuel_irrel currency fuel _ _ _ h le_rfl

/-- Witness for C9: on the two-person balance map the heaps hold 2 entries,
any fuel of at least 2 (here 1000) reproduces the settlement result. -/
theorem c9_settlement_loop_terminates_witness :
    settleLoop "INR" 1000 (buildHeaps [("A", 10), ("B", -10)]).1
        (buildHeaps [("A", 10), ("B", -10)]).2 =
      calculateSettlementsForCurrency [("A", 10), ("B", -10)] "INR" :=
  c9_settlement_loop_terminates [("A", 10), ("B", -10)] "INR" 1000
    (by
      rw [show Array.size (buildHeaps [("A", (10:ℚ)), ("B", -10)]).1 +
            Array.size (buildHeaps [("A", (10:ℚ)), ("B", -10)]).2 = 2 from by
          with_unfolding_all rfl]
      norm_num)

/-- C3: the shared amount-consistency validation accepts an expense iff both
the payer sum and the split sum agree with the total within 0.001 (all rounded
to 2 decimals first); a payer-side mismatch is reported as an amount-mismatch
error naming "payer" regardless of the split side (payer checked first), a
split-side mismatch (with the payer side fine) as one naming "split"; and
concretely: total 10.00 with payer 10.00 and splits 3.33/3.33/3.34 validates,
splits summing to 9.99 fail naming "split", a payer sum of 9.99 fails naming
"payer". -/
theorem c3_validate_expense_amounts :
    (∀ (expense : Expense) (splits : List ExpenseSplit),
      validateExpenseAmounts expense splits = .ok () ↔
        (|round2 (expense.payers.foldl (fun acc payer => acc + payer.amountPaid) 0) -
            round2 expense.totalAmount| ≤ AmountTolerance ∧
         |round2 (splits.foldl (fun acc split => acc + split.amount) 0) -
            round2 expense.totalAmount| ≤ AmountTolerance)) ∧
    (∀ (expense : Expense) (splits : List ExpenseSplit),
      AmountTolerance <
          |round2 (expense.payers.foldl (fun acc payer => acc + payer.amountPaid) 0) -
            round2 expense.totalAmount| →
      validateExpenseAmounts expense splits =
        .error (.amountMismatch
          (round2 (expense.payers.foldl (fun acc payer => acc + payer.amountPaid) 0))
          (round2 expense.totalAmount) "payer")) ∧
    (∀ (expense : Expense) (splits : List ExpenseSplit),
      |round2 (expense.payers.foldl (fun acc payer => acc + payer.amountPaid) 0) -
          round2 expense.totalAmount| ≤ AmountTolerance →
      AmountTolerance <
          |round2 (splits.foldl (fun acc split => acc + split.amount) 0) -
            round2 expense.totalAmount| →
      validateExpenseAmounts expense splits =
        .error (.amountMismatch
          (round2 (splits.foldl (fun acc split => acc + split.amount) 0))
          (round2 expense.totalAmount) "split")) ∧
    (validateExpenseAmounts (Expense.mk 10 none [ExpensePayer.mk "A" 10] [])
      [ExpenseSplit.mk "A" (333/100), ExpenseSplit.mk "B" (333/100),
       ExpenseSplit.mk "C" (334/100)] = .ok ()) ∧
    (validateExpenseAmounts (Expense.mk 10 none [ExpensePayer.mk "A" 10] [])
      [ExpenseSplit.mk "A" (333/100), ExpenseSplit.mk "B" (333/100),
       ExpenseSplit.mk "C" (333/100)] =
      .error (.amountMismatch (999/100) 10 "split")) ∧
    (validateExpenseAmounts (Expense.mk 10 none [ExpensePayer.mk "A" (999/100)] [])
      [ExpenseSplit.mk "A" 5, ExpenseSplit.mk "B" 5] =
      .error (.amountMismatch (999/100) 10 "payer")) := by
  refine ⟨?_, ?_, ?_, ?_, ?_, ?_⟩
  · intro expense splits
    unfold validateExpenseAmounts
    dsimp only
    split
    · next h1 =>
      constructor
      · intro h
        exact Except.noConfusion h
      · intro hab
        exact absurd hab.1 (not_le.mpr h1)
    · next h1 =>
      split
      · next h2 =>
        constructor
        · intro h
          exact Except.noConfusion h
        · intro hab
          exact absurd hab.2 (not_le.mpr h2)
      · next h2 =>
        exact iff_of_true rfl ⟨not_lt.mp h1, not_lt.mp h2⟩
  · intro expense splits h
    unfold validateExpenseAmounts
    dsimp only
    rw [if_pos h]
  · intro expense splits h1 h2
    unfold validateExpenseAmounts
    dsimp only
    rw [if_neg (not_lt.mpr h1), if_pos h2]
  · with_unfolding_all rfl
  · with_unfolding_all rfl
  · with_unfolding_all rfl

/-- Witness for C3: the payer-first branch applied at a concrete mismatching
payer sum of 9.99 against total 10.00. -/
theorem c3_validate_expense_amounts_witness :
    validateExpenseAmounts (Expense.mk 10 none [ExpensePayer.mk "A" (999/100)] [])
      [ExpenseSplit.mk "A" 5, ExpenseSplit.mk "B" 5] =
    .error (.amountMismatch
      (round2 ([ExpensePayer.mk "A" (999/100)].foldl
        (fun acc payer => acc + payer.amountPaid) 0))
      (round2 (10:ℚ)) "payer") :=
  c3_validate_expense_amounts.2.1
    (Expense.mk 10 none [ExpensePayer.mk "A" (999/100)] [])
    [ExpenseSplit.mk "A" 5, ExpenseSplit.mk "B" 5]
    (by
      rw [show round2 ([ExpensePayer.mk "A" (999/100)].foldl
            (fun acc payer => acc + payer.amountPaid) 0) = 999/100 from by
          with_unfolding_all rfl,
        show round2 ((Expense.mk 10 none [ExpensePayer.mk "A" (999/100)] []).totalAmount)
            = 10 from by with_unfolding_all rfl]
      rw [show |(999:ℚ)/100 - 10| = 1/100 from by rw [abs_of_nonpos] <;> norm_num]
      norm_num [AmountTolerance])

/-- C10: when expense Update receives an empty payer list and neither the
request nor the stored expense carries a paid-by user id, no payer is
synthesized, so whenever the rounded total differs from zero by more than
0.001 the update is rejected with a payer-side amount-mismatch (payer sum 0
against the rounded total) and — the validation running before the replace
transaction — the stored expense, payers, splits and receipt items are
returned unchanged. -/
theorem c10_update_no_payers_rejected :
    ∀ (stored : StoredExpenseState) (req : Expense) (newSplits : List ExpenseSplit),
      req.payers = [] → req.paidByUserID = none →
      stored.expense.paidByUserID = none →
      AmountTolerance < |round2 req.totalAmount| →
      expenseUpdate stored req newSplits =
        (some (.amountMismatch 0 (round2 req.totalAmount) "payer"), stored) := by
  intro stored req newSplits hp hq hs ht
  have hv : validateExpenseAmounts req newSplits =
      .error (.amountMismatch 0 (round2 req.totalAmount) "payer") := by
    unfold validateExpenseAmounts
    dsimp only
    rw [hp]
    rw [show List.foldl (fun acc payer => acc + payer.amountPaid) 0
        ([] : List ExpensePayer) = 0 from rfl]
    rw [round2_zero, if_pos (by rw [zero_sub, abs_neg]; exact ht)]
  unfold expenseUpdate
  dsimp only
  rw [if_pos hp, if_neg (by rw [hs]; simp), hq]
  dsimp only
  rw [hv]

/-- Witness for C10: a concrete update request of total 5 with no payers, no
paid-by anywhere, is rejected and the stored state of a zero-total expense is
untouched. -/
theorem c10_update_no_payers_rejected_witness :
    expenseUpdate (StoredExpenseState.mk (Expense.mk 0 none [] []) [])
        (Expense.mk 5 none [] []) [] =
      (some (.amountMismatch 0 (round2 (5:ℚ)) "payer"),
       StoredExpenseState.mk (Expense.mk 0 none [] []) []) :=
  c10_update_no_payers_rejected
    (StoredExpenseState.mk (Expense.mk 0 none [] []) [])
    (Expense.mk 5 none [] []) [] rfl rfl rfl
    (by
      rw [show round2 ((Expense.mk 5 none [] []).totalAmount) = 5 from by
          with_unfolding_all rfl]
      rw [abs_of_pos] <;> norm_num [AmountTolerance])

theorem calcBal_inner_append (u : String) :
    ∀ (l : List (String × ℚ)) (r : List Balance),
      List.foldl (fun result' cb =>
        if |round2 cb.2| > BalanceThreshold then result' ++ [Balance.mk u (round2 cb.2)]
        else result') r l =
      r ++ List.foldl (fun result' cb =>
        if |round2 cb.2| > BalanceThreshold then result' ++ [Balance.mk u (round2 cb.2)]
        else result') [] l := by
  intro l
  induction l with
  | nil => intro r; simp
  | cons cb rest ih =>
    intro r
    rw [List.foldl_cons, List.foldl_cons]
    split
    · rw [ih (r ++ _), ih ([] ++ _)]
      simp
    · rw [ih r]

theorem calcBal_inner_nil_iff (u : String) (l : List (String × ℚ)) :
    List.foldl (fun result' cb =>
      if |round2 cb.2| > BalanceThreshold then result' ++ [Balance.mk u (round2 cb.2)]
      else result') [] l = [] ↔
    ∀ cb ∈ l, ¬(|round2 cb.2| > BalanceThreshold) := by
  induction l with
  | nil => simp
  | cons cb rest ih =>
    rw [List.foldl_cons]
    split
    · next h =>
      apply iff_of_false
      · rw [List.nil_append, calcBal_inner_append]
        simp
      · intro hall
        exact hall cb (List.mem_cons_self cb rest) h
    · next h =>
      rw [List.forall_mem_cons]
      constructor
      · intro hr
        exact ⟨h, ih.mp hr⟩
      · intro hr
        exact ih.mpr hr.2

theorem calcBal_outer_append :
    ∀ (b : List (String × List (String × ℚ))) (r : List Balance),
      List.foldl (fun result uc =>
        uc.2.foldl (fun result' cb =>
          if |round2 cb.2| > BalanceThreshold then result' ++ [Balance.mk uc.1 (round2 cb.2)]
          else result') result) r b =
      r ++ List.foldl (fun result uc =>
        uc.2.foldl (fun result' cb =>
          if |round2 cb.2| > BalanceThreshold then result' ++ [Balance.mk uc.1 (round2 cb.2)]
          else result') result) [] b := by
  intro b
  induction b with
  | nil => intro r; simp
  | cons uc rest ih =>
    intro r
    rw [List.foldl_cons, List.foldl_cons, calcBal_inner_append uc.1 uc.2 r,
      calcBal_inner_append uc.1 uc.2 [], ih (r ++ _), ih ([] ++ _)]
    simp

theorem calculateBalances_eq_nil_iff (b : List (String × List (String × ℚ))) :
    calculateBalances b = [] ↔
    ∀ uc ∈ b, ∀ cb ∈ uc.2, ¬(|round2 cb.2| > BalanceThreshold) := by
  unfold calculateBalances
  dsimp only
  induction b with
  | nil => simp
  | cons uc rest ih =>
    rw [List.foldl_cons, List.forall_mem_cons]
    rw [calcBal_outer_append rest _]
    constructor
    · intro h
      have h1 : uc.2.foldl (fun result' cb =>
          if |round2 cb.2| > BalanceThreshold then result' ++ [Balance.mk uc.1 (round2 cb.2)]
          else result') [] = [] := by
        rcases List.append_eq_nil.mp h with ⟨ha, -⟩
        exact ha
      have h2 : List.foldl _ [] rest = [] := (List.append_eq_nil.mp h).2
      exact ⟨(calcBal_inner_nil_iff uc.1 uc.2).mp h1, ih.mp h2⟩
    · intro ⟨h1, h2⟩
      rw [(calcBal_inner_nil_iff uc.1 uc.2).mpr h1, List.nil_append]
      exact ih.mpr h2

/-- C4: group deletion (by a member) is rejected with the
cannot-delete-group-with-debts error exactly when some member holds, in some
currency, a balance whose 2-decimal rounding exceeds 0.01 in absolute value;
and the delete is issued exactly when every member's rounded balance in every
currency is within 0.01 of zero. -/
theorem c4_group_delete_guard :
    ∀ (balancesByCurrency : List (String × List (String × ℚ))),
      (groupDelete balancesByCurrency = some .cannotDeleteGroupWithDebts ↔
        ∃ uc ∈ balancesByCurrency, ∃ cb ∈ uc.2, |round2 cb.2| > BalanceThreshold) ∧
      (groupDelete balancesByCurrency = none ↔
        ∀ uc ∈ balancesByCurrency, ∀ cb ∈ uc.2, |round2 cb.2| ≤ BalanceThreshold) := by
  intro b
  have hnil := calculateBalances_eq_nil_iff b
  unfold groupDelete
  by_cases h : (calculateBalances b).length > 0
  · rw [if_pos h]
    have hne : calculateBalances b ≠ [] := by
      intro he
      rw [he] at h
      simp at h
    constructor
    · apply iff_of_true rfl
      by_contra hc
      push_neg at hc
      exact hne (hnil.mpr (fun uc hu cb hcb => not_lt.mpr (hc uc hu cb hcb)))
    · apply iff_of_false (by simp)
      intro hall
      exact hne (hnil.mpr (fun uc hu cb hcb => not_lt.mpr (hall uc hu cb hcb)))
  · rw [if_neg h]
    have hnl : calculateBalances b = [] := by
      cases hcb : calculateBalances b with
      | nil => rfl
      | cons x xs =>
        rw [hcb] at h
        simp at h
    constructor
    · apply iff_of_false (by simp)
      rintro ⟨uc, hu, cb, hcb, hgt⟩
      exact (hnil.mp hnl uc hu cb hcb) hgt
    · apply iff_of_true rfl
      intro uc hu cb hcb
      exact not_lt.mp (hnil.mp hnl uc hu cb hcb)

/-- Witness for C4: a single member holding 5.00 in one currency blocks the
delete. -/
theorem c4_group_delete_guard_witness :
    groupDelete [("A", [("INR", 5)])] = some .cannotDeleteGroupWithDebts :=
  (c4_group_delete_guard [("A", [("INR", 5)])]).1.mpr
    ⟨("A", [("INR", 5)]), by simp, ("INR", 5), by simp,
      by
        rw [show round2 ((("INR", (5:ℚ))).2) = 5 from by with_unfolding_all rfl]
        rw [abs_of_pos] <;> norm_num [BalanceThreshold]⟩

/-- Counterexample for C7: with the directed edge (u1, u2) already present,
adding the same friend again by email succeeds silently — it does not fail
with the already-friends error the claim demands, because the
ignore-on-conflict insert never surfaces a duplicate-key error. -/
theorem c7_add_friend_again_counterexample :
    (AddFriendByEmail [User.mk "u2" "b@x.com"]
        (FriendsTable.mk [("u1", "u2")]) "u1" "b@x.com").2 = .ok () ∧
    (AddFriendByEmail [User.mk "u2" "b@x.com"]
        (FriendsTable.mk [("u1", "u2")]) "u1" "b@x.com").2 ≠
      .error .alreadyFriends := by
  constructor
  · with_unfolding_all rfl
  · rw [show (AddFriendByEmail [User.mk "u2" "b@x.com"]
        (FriendsTable.mk [("u1", "u2")]) "u1" "b@x.com").2 = .ok () from by
      with_unfolding_all rfl]
    intro h
    exact Except.noConfusion h

/-- C7 as amended: when the email resolves to the caller themself the add
fails with the cannot-add-self error; when it resolves to another user the
add always succeeds — inserting the edge when absent and silently doing
nothing when it is already present (the repository insert is
ignore-on-conflict, so the service's already-friends branch never fires). -/
theorem c7_add_friend_corrected :
    ∀ (users : List User) (t : FriendsTable) (userID email : String) (u : User),
      getByEmail users email = some u →
      (u.id = userID →
        AddFriendByEmail users t userID email = (t, .error .cannotAddSelf)) ∧
      (u.id ≠ userID →
        AddFriendByEmail users t userID email =
          ((if (userID, u.id) ∈ t.edges then t
            else FriendsTable.mk (t.edges ++ [(userID, u.id)])), .ok ())) := by
  intro users t userID email u hget
  constructor
  · intro hid
    unfold AddFriendByEmail
    rw [hget]
    dsimp only
    rw [if_pos hid]
  · intro hid
    unfold AddFriendByEmail
    rw [hget]
    dsimp only
    rw [if_neg hid]
    unfold friendRepoAdd
    try dsimp only
    by_cases hm : (userID, u.id) ∈ t.edges
    · rw [if_pos hm, if_pos hm]
    · rw [if_neg hm, if_neg hm]

/-- Witness for C7 (amended): adding a fresh friend inserts the directed
edge and succeeds. -/
theorem c7_add_friend_corrected_witness :
    AddFriendByEmail [User.mk "u2" "e@x"] (FriendsTable.mk []) "u1" "e@x" =
      (FriendsTable.mk [("u1", "u2")], .ok ()) := by
  have h := (c7_add_friend_corrected [User.mk "u2" "e@x"] (FriendsTable.mk [])
      "u1" "e@x" (User.mk "u2" "e@x") (by with_unfolding_all rfl)).2
    (by with_unfolding_all decide)
  rw [h, if_neg (by simp)]
  rfl

/-- C8: comment reactions are idempotent at the service interface — with the
comment found and access granted, adding a reaction always succeeds (the
duplicate-key error of a repeated insert is swallowed, leaving the rows
unchanged), and removing a reaction that is not present succeeds and leaves
the rows unchanged. -/
theorem c8_reaction_idempotent :
    ∀ (rows : List ReactionRow) (commentID userID emoji : String),
      (AddReaction true true rows commentID userID emoji =
        ((if (commentID, userID, emoji) ∈ rows then rows
          else rows ++ [(commentID, userID, emoji)]), .ok ())) ∧
      ((commentID, userID, emoji) ∈ rows →
        AddReaction true true rows commentID userID emoji = (rows, .ok ())) ∧
      ((commentID, userID, emoji) ∉ rows →
        RemoveReaction rows commentID userID emoji = (rows, .ok ())) := by
  intro rows commentID userID emoji
  have hadd : AddReaction true true rows commentID userID emoji =
      ((if (commentID, userID, emoji) ∈ rows then rows
        else rows ++ [(commentID, userID, emoji)]), .ok ()) := by
    unfold AddReaction commentRepoAddReaction
    simp only [Bool.not_true]
    rw [if_neg (by simp), if_neg (by simp)]
    try dsimp only
    by_cases hm : (commentID, userID, emoji) ∈ rows
    · rw [if_pos hm, if_pos hm]
      rfl
    · rw [if_neg hm, if_neg hm]
  refine ⟨hadd, ?_, ?_⟩
  · intro hm
    rw [hadd, if_pos hm]
  · intro hm
    unfold RemoveReaction commentRepoRemoveReaction
    dsimp only
    congr 1
    apply List.filter_eq_self.mpr
    intro a ha
    rw [decide_eq_true_eq]
    intro he
    exact hm (he ▸ ha)

/-- Witness for C8: a duplicate add of an existing reaction row is a no-op
success, and removing from an empty table succeeds. -/
theorem c8_reaction_idempotent_witness :
    AddReaction true true [("c1", "u1", "e1")] "c1" "u1" "e1" =
      ([("c1", "u1", "e1")], .ok ()) ∧
    RemoveReaction [] "c1" "u1" "e1" = ([], .ok ()) :=
  ⟨(c8_reaction_idempotent [("c1", "u1", "e1")] "c1" "u1" "e1").2.1 (by simp),
   (c8_reaction_idempotent [] "c1" "u1" "e1").2.2 (by simp)⟩

theorem isWhitespaceChar_iff (c : Char) :
    isWhitespaceChar c = true ↔ ¬(c ≠ ' ' ∧ c ≠ '\n' ∧ c ≠ '\t' ∧ c ≠ '\r') := by
  unfold isWhitespaceChar
  simp only [Bool.or_eq_true, decide_eq_true_eq]
  tauto

theorem removeWhitespaceLoop_escape (l : List Char) (b : Bool) (c : Char) :
    removeWhitespaceLoop (c :: l) b true = c :: removeWhitespaceLoop l b false := by
  rw [removeWhitespaceLoop, if_pos rfl]

theorem removeWhitespaceLoop_eq_sanitizeSpec_aux :
    ∀ (n : Nat) (l : List Char), l.length ≤ n → ∀ (b : Bool),
      removeWhitespaceLoop l b false = sanitizeSpec l b := by
  intro n
  induction n with
  | zero =>
    intro l hl b
    have hnil : l = [] := List.eq_nil_of_length_eq_zero (by omega)
    subst hnil
    rfl
  | succ n ih =>
    intro l hl b
    cases l with
    | nil => rfl
    | cons c rest =>
      simp only [List.length_cons] at hl
      rw [removeWhitespaceLoop, sanitizeSpec.eq_def]
      try dsimp only
      rw [if_neg (by simp)]
      by_cases hb : c = '\\'
      · rw [if_pos hb, if_pos hb]
        cases rest with
        | nil => rfl
        | cons c2 rest2 =>
          simp only [List.length_cons] at hl
          rw [removeWhitespaceLoop_escape, ih rest2 (by omega) b]
      · rw [if_neg hb, if_neg hb]
        by_cases hq : c = '"'
        · rw [if_pos hq, if_pos hq, ih rest (by omega) (!b)]
        · rw [if_neg hq, if_neg hq]
          cases b with
          | false =>
            rw [if_neg (show ¬(false = true) by simp),
              if_neg (show ¬(false = true) by simp)]
            by_cases hw : isWhitespaceChar c = true
            · rw [if_neg ((isWhitespaceChar_iff c).mp hw), if_pos hw,
                ih rest (by omega) false]
            · have hc : c ≠ ' ' ∧ c ≠ '\n' ∧ c ≠ '\t' ∧ c ≠ '\r' := by
                by_contra hcc
                exact hw ((isWhitespaceChar_iff c).mpr hcc)
              rw [if_pos hc, if_neg hw, ih rest (by omega) false]
          | true =>
            rw [if_pos rfl, if_pos rfl, ih rest (by omega) true]

/-- C6: the receipt-response sanitizer strips markdown fences and leading and
trailing backticks, then removes whitespace (space, tab, newline, carriage
return) exactly outside double-quoted string literals while preserving every
character inside them, tracking in-string state across the scan and treating
a backslash as escaping the following character: the scanning loop coincides,
for every input and starting in-string state, with the two-characters-at-a-time
escape-pair reading of that description (`sanitizeSpec`), and concretely a
fenced JSON object keeps the space inside its quoted key while losing the one
outside, and an escaped quote inside a string value neither ends the string
nor loses the space that follows it. -/
theorem c6_clean_json_response :
    (∀ (l : List Char) (inString : Bool),
      removeWhitespaceLoop l inString false = sanitizeSpec l inString) ∧
    cleanJSONResponse ("\x60\x60\x60json\n\x7b\"a b\": 1\x7d\n\x60\x60\x60".data) =
      ("\x7b\"a b\":1\x7d".data) ∧
    cleanJSONResponse ("\x7b\"k\": \"a\\\" b\"\x7d".data) =
      ("\x7b\"k\":\"a\\\" b\"\x7d".data) := by
  refine ⟨?_, ?_, ?_⟩
  · intro l inString
    exact removeWhitespaceLoop_eq_sanitizeSpec_aux l.length l le_rfl inString
  · with_unfolding_all rfl
  · with_unfolding_all rfl

theorem importTotalOwed_foldl :
    ∀ (l : List (String × ℚ)) (a : ℚ),
      l.foldl (fun acc kv => if kv.2 < -AmountTolerance then acc + |kv.2| else acc) a
        = a + importTotalOwed l := by
  intro l
  induction l with
  | nil =>
    intro a
    simp [importTotalOwed]
  | cons kv rest ih =>
    intro a
    unfold importTotalOwed
    rw [List.foldl_cons, List.filter_cons]
    by_cases h : kv.2 < -AmountTolerance
    · rw [if_pos h, if_pos (by simpa using h), List.map_cons, List.sum_cons, ih]
      unfold importTotalOwed
      ring
    · rw [if_neg h, if_neg (by simpa using h), ih]
      unfold importTotalOwed
      rfl

theorem import_fold_chars (mapping : List (String × String)) (payerShare : ℚ) :
    ∀ (l : List (String × ℚ)) (acc : List ExpensePayer × List ExpenseSplit),
      l.foldl (fun ps kv =>
        match lookupMember mapping kv.1 with
        | none => ps
        | some userID =>
          if kv.2 > AmountTolerance then
            (ps.1 ++ [ExpensePayer.mk userID (kv.2 + payerShare)],
             if payerShare > AmountTolerance then
               ps.2 ++ [ExpenseSplit.mk userID payerShare]
             else ps.2)
          else if kv.2 < -AmountTolerance then
            (ps.1, ps.2 ++ [ExpenseSplit.mk userID |kv.2|])
          else ps) acc
      = (acc.1 ++ importPayersSpec mapping payerShare l,
         acc.2 ++ importSplitsSpec mapping payerShare l) := by
  intro l
  induction l with
  | nil =>
    intro acc
    simp [importPayersSpec, importSplitsSpec]
  | cons kv rest ih =>
    intro acc
    have ih' := ih
    simp only [importPayersSpec, importSplitsSpec] at ih' ⊢
    rw [List.foldl_cons, List.filterMap_cons, List.flatMap_cons]
    cases hlk : lookupMember mapping kv.1 with
    | none =>
      conv_lhs => arg 2; simp only [hlk]
      rw [ih']
      simp [hlk]
    | some u =>
      by_cases h1 : kv.2 > AmountTolerance
      · by_cases h2 : payerShare > AmountTolerance
        · conv_lhs => arg 2; simp only [hlk, if_pos h1, if_pos h2]
          rw [ih']
          simp [hlk, h1, h2, List.append_assoc]
        · conv_lhs => arg 2; simp only [hlk, if_pos h1, if_neg h2]
          rw [ih']
          simp [hlk, h1, h2, List.append_assoc]
      · by_cases h3 : kv.2 < -AmountTolerance
        · conv_lhs => arg 2; simp only [hlk, if_neg h1, if_pos h3]
          rw [ih']
          simp [hlk, h1, h3, List.append_assoc]
        · conv_lhs => arg 2; simp only [hlk, if_neg h1, if_neg h3]
          rw [ih']
          simp [hlk, h1, h3]

theorem importMaxMember_nonpos :
    ∀ (l : List (String × ℚ)), (∀ kv ∈ l, kv.2 ≤ 0) → importMaxMember l = ("", 0) := by
  have h : ∀ (l : List (String × ℚ)) (m : String × ℚ), 0 ≤ m.2 →
      (∀ kv ∈ l, kv.2 ≤ 0) →
      l.foldl (fun m kv => if kv.2 > m.2 then kv else m) m = m := by
    intro l
    induction l with
    | nil => intro m _ _; rfl
    | cons kv rest ih =>
      intro m hm hall
      rw [List.foldl_cons,
        if_neg (not_lt.mpr (le_trans (hall kv (by simp)) hm))]
      exact ih m hm (fun kv2 hk => hall kv2 (by simp [hk]))
  intro l hl
  exact h l ("", 0) le_rfl hl

theorem importExpenseRow_eq (row : SplitwiseRow) (mapping : List (String × String)) :
    importExpenseRow row mapping =
      (if importPayersSpec mapping (row.cost - importTotalOwed row.balances)
          row.balances = [] then
        (if (importMaxMember row.balances).1 ≠ "" then
          (match lookupMember mapping (importMaxMember row.balances).1 with
           | some userID =>
             ([ExpensePayer.mk userID row.cost],
              importSplitsSpec mapping (row.cost - importTotalOwed row.balances)
                row.balances)
           | none =>
             ([], importSplitsSpec mapping (row.cost - importTotalOwed row.balances)
                row.balances))
         else
          ([], importSplitsSpec mapping (row.cost - importTotalOwed row.balances)
            row.balances))
      else
        (importPayersSpec mapping (row.cost - importTotalOwed row.balances)
          row.balances,
         importSplitsSpec mapping (row.cost - importTotalOwed row.balances)
          row.balances)) := by
  unfold importExpenseRow importMaxMember
  dsimp only
  rw [importTotalOwed_foldl, zero_add, import_fold_chars]
  simp only [List.nil_append]

/-- Counterexample for C5: for the row of cost 10 with balances A at 0 and B
at −0.0005 (all members mapped), the positive-balance loop yields no payer,
and the member with the highest balance — A, at 0 — does NOT become sole
payer: the fallback requires a strictly positive balance, so the expense is
created with no payers at all. -/
theorem c5_import_fallback_counterexample :
    (importExpenseRow (SplitwiseRow.mk 10 [("A", 0), ("B", -(1/2000))])
        [("A", "uA"), ("B", "uB")]).1 = [] ∧
    (importExpenseRow (SplitwiseRow.mk 10 [("A", 0), ("B", -(1/2000))])
        [("A", "uA"), ("B", "uB")]).1 ≠ [ExpensePayer.mk "uA" 10] := by
  constructor
  · with_unfolding_all rfl
  · rw [show (importExpenseRow (SplitwiseRow.mk 10 [("A", 0), ("B", -(1/2000))])
        [("A", "uA"), ("B", "uB")]).1 = [] from by with_unfolding_all rfl]
    simp

/-- C5 as amended: for every imported expense row, with
`payerShare = cost − totalOwed` and `totalOwed` the sum of the absolute
values of balances below −0.001, the computed splits are exactly the
claim's splits (each mapped member with balance above 0.001 contributes a
`payerShare` split when `payerShare` exceeds 0.001, each mapped member with
balance below −0.001 contributes the absolute value of their balance); the
computed payers are exactly the claim's payers (`balance + payerShare` for
each mapped member with balance above 0.001) whenever that list is nonempty;
and when no payer is produced, the fallback names a sole payer of the full
cost only for a member with a strictly positive balance (the first strict
maximum in iteration order) — when every balance is ≤ 0 the row produces no
payer at all. -/
theorem c5_import_expense_row_amended :
    ∀ (row : SplitwiseRow) (mapping : List (String × String)),
      ((importExpenseRow row mapping).2 =
        importSplitsSpec mapping (row.cost - importTotalOwed row.balances)
          row.balances) ∧
      (importPayersSpec mapping (row.cost - importTotalOwed row.balances)
          row.balances ≠ [] →
        (importExpenseRow row mapping).1 =
          importPayersSpec mapping (row.cost - importTotalOwed row.balances)
            row.balances) ∧
      (importPayersSpec mapping (row.cost - importTotalOwed row.balances)
          row.balances = [] →
        (∀ kv ∈ row.balances, kv.2 ≤ 0) →
        (importExpenseRow row mapping).1 = []) ∧
      (∀ u : String,
        importPayersSpec mapping (row.cost - importTotalOwed row.balances)
          row.balances = [] →
        (importMaxMember row.balances).1 ≠ "" →
        lookupMember mapping (importMaxMember row.balances).1 = some u →
        (importExpenseRow row mapping).1 = [ExpensePayer.mk u row.cost]) := by
  intro row mapping
  refine ⟨?_, ?_, ?_, ?_⟩
  · rw [importExpenseRow_eq]
    split
    · split
      · split
        · rfl
        · rfl
      · rfl
    · rfl
  · intro h
    rw [importExpenseRow_eq, if_neg h]
  · intro hps hall
    rw [importExpenseRow_eq, if_pos hps, importMaxMember_nonpos row.balances hall]
    rw [if_neg (by simp)]
  · intro u hps hmx hlk
    rw [importExpenseRow_eq, if_pos hps, if_pos hmx, hlk]

/-- Witness for C5 (amended): the row of cost 10 with A at +10 and B at −10
has totalOwed 10, payerShare 0, and the amended theorem instantiates to give
A (mapped to uA) as the sole payer for 10 + 0 and B (mapped to uB) a split of
10. -/
theorem c5_import_expense_row_amended_witness :
    (importExpenseRow (SplitwiseRow.mk 10 [("A", 10), ("B", -10)])
        [("A", "uA"), ("B", "uB")]).1 =
      importPayersSpec [("A", "uA"), ("B", "uB")]
        ((SplitwiseRow.mk 10 [("A", 10), ("B", -10)]).cost -
          importTotalOwed [("A", 10), ("B", -10)])
        [("A", 10), ("B", -10)] :=
  (c5_import_expense_row_amended (SplitwiseRow.mk 10 [("A", 10), ("B", -10)])
      [("A", "uA"), ("B", "uB")]).2.1
    (by
      rw [show importPayersSpec [("A", "uA"), ("B", "uB")]
          ((SplitwiseRow.mk 10 [("A", 10), ("B", -10)]).cost -
            importTotalOwed [("A", 10), ("B", -10)])
          [("A", 10), ("B", -10)] = [ExpensePayer.mk "uA" 10] from by
        with_unfolding_all rfl]
      simp)
